import Mathlib

/-!
Verification of the `awswrangler.s3` module (file `src/awswrangler/s3.py`)
against its natural-language specification.

The shallow embedding below models:
* a dataframe as a list of rows, each row an association list from column
  name to (string-rendered) cell value;
* the remote object store as a list of `(bucket, key)` pairs in provider
  listing order, or as a list of full `s3://bucket/key` path strings where
  only paths matter;
* side effects of the parquet writer as an explicit trace of `S3Action`s;
* fallible code with `Except`;
* the per-attempt outcomes of `head_object` as oracles `Nat -> HeadRes`
  (attempt index to outcome), and thread-pool scheduling as an explicit
  completion order `List Nat` over task indices.

Fresh random file names (`uuid.uuid4().hex`) are modelled by a supply
`freshNames : Nat -> String` indexed by the order of file writes.
-/

namespace AwsWranglerS3

/-- A dataframe row: association list from column name to cell value
(values are modelled string-rendered, as they appear in partition paths). -/
abbrev Row := List (String × String)

/-- A dataframe: list of rows (`pandas.DataFrame`). -/
abbrev DataFrame := List Row

/-- Attribute mapping returned by a successful `head_object` call. -/
abbrev Desc := List (String × String)

/-- The exception classes of `awswrangler.exceptions` raised by this module. -/
inductive Exc where
  | invalidArgumentType (msg : String)
  | invalidArgumentValue (msg : String)
  | invalidArgumentCombination (msg : String)
  | invalidCompression (msg : String)
  deriving DecidableEq, Repr

/-- Side effects of the writer on the object store: a bulk delete of every
object under a path (a `delete_objects` call on that path as an S3 key
string treated as a listing filter), or a single-file parquet write
(`_to_parquet_file`). -/
inductive S3Action where
  | deleteUnder (pre : String)
  | writeFile (path : String) (df : DataFrame)
  deriving DecidableEq, Repr

/-- String prefix test (computed on the underlying character lists). -/
def strIsPrefixOf (p s : String) : Bool :=
  p.data.isPrefixOf s.data

/-- Store-level meaning of one writer action: a delete removes every object
whose path starts with the given path string, a write adds the object. -/
def applyAction (store : List String) : S3Action → List String
  | .deleteUnder pre => store.filter (fun p => !(strIsPrefixOf pre p))
  | .writeFile p _ => store ++ [p]

/-- The file write actions of a trace, in order (path and payload written). -/
def writesOf (acts : List S3Action) : List (String × DataFrame) :=
  acts.filterMap (fun a =>
    match a with
    | .writeFile p d => some (p, d)
    | _ => none)

/-- Modelled from the spec: `_utils.parse_path` is imported from
`awswrangler._utils`, which is not under `src/`; the spec says it "splits a
storage locator into container + key" on the first path separator after the
scheme. `does_object_exists` in `src/awswrangler/s3.py` inlines the same
computation as `path.replace("s3://", "").split("/", 1)`, which this
definition mirrors. -/
def parse_path (path : String) : String × String :=
  let cs := if "s3://".data.isPrefixOf path.data then path.data.drop 5 else path.data
  (String.mk (cs.takeWhile (fun c => c ≠ '/')),
   String.mk ((cs.dropWhile (fun c => c ≠ '/')).drop 1))

/-- The `_COMPRESSION_2_EXT` dictionary of `s3.py` line 19, as the total
lookup function `dict.get(compression, None)`. -/
def _COMPRESSION_2_EXT (compression : Option String) : Option String :=
  match compression with
  | none => some ""
  | some s => if s = "gzip" then some ".gz" else if s = "snappy" then some ".snappy" else none

/-- Normalization of the dataset target path (`s3.py` line 518):
append a trailing separator when missing. -/
def normPath (path : String) : String :=
  if path.data.getLast? = some '/' then path else path ++ "/"

/-- Lexicographic strict comparison of character lists (code-point order). -/
def charListLt : List Char → List Char → Bool
  | [], [] => false
  | [], _ :: _ => true
  | _ :: _, [] => false
  | a :: as, b :: bs =>
    if a.toNat < b.toNat then true
    else if b.toNat < a.toNat then false
    else charListLt as bs

/-- Lexicographic strict comparison of value tuples, modelling the sorted
group-key order of `pandas.DataFrame.groupby` (default `sort=True`). -/
def lexLt : List String → List String → Bool
  | [], [] => false
  | [], _ :: _ => true
  | _ :: _, [] => false
  | a :: as, b :: bs =>
    if charListLt a.data b.data then true
    else if charListLt b.data a.data then false
    else lexLt as bs

/-- The partition-key tuple of a row: the row's values at the partition
columns, in partition-column order. -/
def keyOf (partition_cols : List String) (row : Row) : List String :=
  partition_cols.map (fun c => (List.lookup c row).getD "")

/-- Drop the partition columns from a row's payload
(`subgroup.drop(partition_cols, axis="columns")`, `s3.py` line 531). -/
def dropCols (partition_cols : List String) (row : Row) : Row :=
  row.filter (fun cv => !(partition_cols.contains cv.1))

/-- The distinct group keys produced by
`df.groupby(by=partition_cols, observed=True)` (`s3.py` line 530):
the distinct partition-key tuples of the dataframe, in sorted order. -/
def groupKeys (partition_cols : List String) (df : DataFrame) : List (List String) :=
  List.insertionSort (fun a b => lexLt a b = true) ((df.map (keyOf partition_cols)).dedup)

/-- The `column=value` subdirectory path of one group
(`"/".join(...)`, `s3.py` line 533). -/
def subdirOf (partition_cols : List String) (key : List String) : String :=
  String.intercalate "/" ((partition_cols.zip key).map (fun nv => nv.1 ++ "=" ++ nv.2))

/-- The body of the `for keys, subgroup in df.groupby(...)` loop of
`_to_parquet_dataset` (`s3.py` lines 530-539), iterated over the group
keys; `i` indexes the fresh-name supply. Returns the action trace and the
written file paths. -/
def writeGroups (freshNames : Nat → String) (compression_ext : String) (npath : String)
    (mode : String) (partition_cols : List String) (df : DataFrame) :
    List (List String) → Nat → List S3Action × List String
  | [], _ => ([], [])
  | k :: ks, i =>
    let subgroup := (df.filter (fun r => decide (keyOf partition_cols r = k))).map
      (dropCols partition_cols)
    let pre := npath ++ subdirOf partition_cols k ++ "/"
    let acts0 : List S3Action := if mode = "partitions_upsert" then [.deleteUnder pre] else []
    let fp := pre ++ freshNames i ++ compression_ext ++ ".parquet"
    let rest := writeGroups freshNames compression_ext npath mode partition_cols df ks (i + 1)
    (acts0 ++ .writeFile fp subgroup :: rest.1, fp :: rest.2)

/-- The `_to_parquet_dataset` function (`s3.py` lines 504-540): normalize
the target, validate the mode, perform the pre-write cleanup delete for
`overwrite` (or `partitions_upsert` without partition columns), then write
one file (no partition columns) or one file per group key. -/
def _to_parquet_dataset (df : DataFrame) (path : String) (compression_ext : String)
    (partition_cols : Option (List String)) (mode : String) (freshNames : Nat → String) :
    List S3Action × Except Exc (List String) :=
  let npath := normPath path
  if mode ∈ (["append", "overwrite", "partitions_upsert"] : List String) then
    let pcs := partition_cols.getD []
    let preActs : List S3Action :=
      if mode = "overwrite" ∨ (mode = "partitions_upsert" ∧ pcs = []) then
        [.deleteUnder npath]
      else []
    if pcs = [] then
      let fp := npath ++ freshNames 0 ++ compression_ext ++ ".parquet"
      (preActs ++ [.writeFile fp df], .ok [fp])
    else
      let gw := writeGroups freshNames compression_ext npath mode pcs df (groupKeys pcs df) 0
      (preActs ++ gw.1, .ok gw.2)
  else
    ([], .error (.invalidArgumentValue
      (mode ++ " is a invalid mode, please use append, overwrite or partitions_upsert.")))

/-- The `to_parquet` function (`s3.py` lines 399-501): validate the
compression kind, then either the single-file branch (`dataset=False`,
rejecting truthy `partition_cols` or `mode`) or the dataset branch
(defaulting a `None` mode to `"append"`). -/
def to_parquet (df : DataFrame) (path : String) (compression : Option String)
    (dataset : Bool) (partition_cols : Option (List String)) (mode : Option String)
    (freshNames : Nat → String) : List S3Action × Except Exc (List String) :=
  match _COMPRESSION_2_EXT compression with
  | none => ([], .error (.invalidCompression
      ((compression.getD "None") ++ " is invalid, please use None, snappy or gzip.")))
  | some compression_ext =>
    if dataset = false then
      if partition_cols.getD [] ≠ [] then
        ([], .error (.invalidArgumentCombination
          "Please, pass dataset=True to be able to use partition_cols."))
      else if mode.getD "" ≠ "" then
        ([], .error (.invalidArgumentCombination
          "Please pass dataset=True to be able to use mode."))
      else
        ([.writeFile path df], .ok [path])
    else
      let m := match mode with
        | none => "append"
        | some s => s
      _to_parquet_dataset df path compression_ext partition_cols m freshNames

/-- A small concrete dataframe used to instantiate theorems:
two rows over columns `col` and `col2`. -/
def exDf : DataFrame := [[("col", "1"), ("col2", "A")], [("col", "2"), ("col2", "B")]]

/-- A concrete fresh-name supply standing in for `uuid.uuid4().hex`. -/
def exFresh : Nat → String := fun i => "f" ++ toString i

theorem writesOf_append (a b : List S3Action) :
    writesOf (a ++ b) = writesOf a ++ writesOf b := by
  simp [writesOf]

theorem writesOf_ite_delete (c : Prop) [Decidable c] (pre : String) :
    writesOf (if c then [S3Action.deleteUnder pre] else []) = [] := by
  split <;> simp [writesOf]

theorem writeGroups_paths (freshNames : Nat → String) (ext npath mode : String)
    (pcs : List String) (df : DataFrame) :
    ∀ (ks : List (List String)) (i : Nat),
      (writeGroups freshNames ext npath mode pcs df ks i).2 =
        (List.enumFrom i ks).map (fun ik =>
          npath ++ subdirOf pcs ik.2 ++ "/" ++ freshNames ik.1 ++ ext ++ ".parquet") := by
  intro ks
  induction ks with
  | nil => intro i; rfl
  | cons k ks ih =>
    intro i
    simp only [writeGroups, List.enumFrom, List.map_cons, List.cons.injEq]
    exact ⟨trivial, ih (i + 1)⟩

theorem writeGroups_writes (freshNames : Nat → String) (ext npath mode : String)
    (pcs : List String) (df : DataFrame) :
    ∀ (ks : List (List String)) (i : Nat),
      writesOf (writeGroups freshNames ext npath mode pcs df ks i).1 =
        (List.enumFrom i ks).map (fun ik =>
          (npath ++ subdirOf pcs ik.2 ++ "/" ++ freshNames ik.1 ++ ext ++ ".parquet",
           (df.filter (fun r => decide (keyOf pcs r = ik.2))).map (dropCols pcs))) := by
  intro ks
  induction ks with
  | nil => intro i; rfl
  | cons k ks ih =>
    intro i
    simp only [writeGroups, List.enumFrom, List.map_cons]
    rw [writesOf_append, writesOf_ite_delete]
    simp only [List.nil_append, writesOf, List.filterMap_cons]
    simp only [writesOf] at ih
    rw [ih (i + 1)]

theorem writeGroups_no_delete (freshNames : Nat → String) (ext npath mode : String)
    (pcs : List String) (df : DataFrame) (hm : ¬ mode = "partitions_upsert") :
    ∀ (ks : List (List String)) (i : Nat) (pre : String),
      S3Action.deleteUnder pre ∉ (writeGroups freshNames ext npath mode pcs df ks i).1 := by
  intro ks
  induction ks with
  | nil => intro i pre h; exact absurd h (List.not_mem_nil _)
  | cons k ks ih =>
    intro i pre
    simp only [writeGroups, if_neg hm, List.nil_append, List.mem_cons]
    rintro (h | h)
    · exact S3Action.noConfusion h
    · exact ih (i + 1) pre h

theorem mem_groupKeys (pcs : List String) (df : DataFrame) (k : List String) :
    k ∈ groupKeys pcs df ↔ ∃ r ∈ df, keyOf pcs r = k := by
  simp [groupKeys, List.mem_insertionSort, List.mem_dedup, List.mem_map]

theorem nodup_groupKeys (pcs : List String) (df : DataFrame) :
    (groupKeys pcs df).Nodup := by
  have h := List.perm_insertionSort (fun a b => lexLt a b = true) ((df.map (keyOf pcs)).dedup)
  exact h.nodup_iff.mpr (List.nodup_dedup _)

/-- C2: for a dataset write in mode `overwrite`, or in mode
`partitions_upsert` with no (truthy) partition columns, the very first
action is the bulk delete of the separator-normalized target prefix (so it
precedes every file write), and executing that delete removes every object
currently under the prefix from the store; in mode `append` the trace
contains no delete at all. -/
theorem C2_prewrite_cleanup (df : DataFrame) (path : String) (compression_ext : String)
    (partition_cols : Option (List String)) (mode : String) (freshNames : Nat → String) :
    ((mode = "overwrite" ∨ (mode = "partitions_upsert" ∧ partition_cols.getD [] = [])) →
      (∃ rest, (_to_parquet_dataset df path compression_ext partition_cols mode freshNames).1 =
          .deleteUnder (normPath path) :: rest) ∧
      (∀ store : List String, ∀ p ∈ store, strIsPrefixOf (normPath path) p = true →
        p ∉ applyAction store (.deleteUnder (normPath path)))) ∧
    (mode = "append" →
      ∀ pre, S3Action.deleteUnder pre ∉
        (_to_parquet_dataset df path compression_ext partition_cols mode freshNames).1) := by
  constructor
  · intro h
    constructor
    · have hmem : mode ∈ (["append", "overwrite", "partitions_upsert"] : List String) := by
        rcases h with h | ⟨h, _⟩ <;> subst h <;> decide
      simp only [_to_parquet_dataset, if_pos hmem, if_pos h]
      by_cases hpc : partition_cols.getD [] = [] <;>
        simp [hpc]
    · intro store p hp hpre hmem
      simp only [applyAction, List.mem_filter, Bool.not_eq_true'] at hmem
      rw [hmem.2] at hpre
      exact Bool.noConfusion hpre
  · intro h pre
    subst h
    have hmem : "append" ∈ (["append", "overwrite", "partitions_upsert"] : List String) := by
      decide
    have hcond : ¬ ("append" = "overwrite" ∨
        ("append" = "partitions_upsert" ∧ partition_cols.getD [] = [])) := by
      rintro (h | ⟨h, _⟩) <;> exact absurd h (by decide)
    simp only [_to_parquet_dataset, if_pos hmem, if_neg hcond, List.nil_append]
    by_cases hpc : partition_cols.getD [] = []
    · simp [hpc, writeGroups]
    · simp only [if_neg hpc]
      exact writeGroups_no_delete freshNames compression_ext (normPath path) "append"
        (partition_cols.getD []) df (by decide) (groupKeys (partition_cols.getD []) df) 0 pre

/-- Witness for C2 at mode `overwrite`. -/
theorem C2_prewrite_cleanup_witness :
    (("overwrite" : String) = "overwrite" ∨
      (("overwrite" : String) = "partitions_upsert" ∧
        (none : Option (List String)).getD [] = [])) ∧
    ((∃ rest,
        (_to_parquet_dataset exDf "s3://bucket/prefix" ".snappy" none "overwrite" exFresh).1 =
          .deleteUnder (normPath "s3://bucket/prefix") :: rest) ∧
     (∀ store : List String, ∀ p ∈ store,
        strIsPrefixOf (normPath "s3://bucket/prefix") p = true →
        p ∉ applyAction store (.deleteUnder (normPath "s3://bucket/prefix")))) :=
  ⟨Or.inl rfl,
   (C2_prewrite_cleanup exDf "s3://bucket/prefix" ".snappy" none "overwrite" exFresh).1
     (Or.inl rfl)⟩

/-- C3: for a dataset write with truthy partition columns and a valid
mode, the dataframe is grouped by the distinct partition-key tuples of
those columns (each tuple once); each group is written as exactly one file
whose path is the normalized prefix, then the `column=value` segments
joined in partition-column order, then a fresh name, the compression
extension and `.parquet`; the written payload of each group is its rows
with the partition columns dropped; and the returned path list is exactly
the written file paths, in processing order. Without truthy partition
columns exactly one file is written directly under the prefix and a
singleton list is returned. -/
theorem C3_partitioned_layout (df : DataFrame) (path : String) (compression_ext : String)
    (partition_cols : Option (List String)) (mode : String) (freshNames : Nat → String)
    (hmode : mode = "append" ∨ mode = "overwrite" ∨ mode = "partitions_upsert") :
    (partition_cols.getD [] ≠ [] →
      ∃ keys : List (List String),
        keys.Nodup ∧
        (∀ k, k ∈ keys ↔ ∃ r ∈ df, keyOf (partition_cols.getD []) r = k) ∧
        (_to_parquet_dataset df path compression_ext partition_cols mode freshNames).2 =
          .ok (keys.enum.map (fun ik =>
            normPath path ++ subdirOf (partition_cols.getD []) ik.2 ++ "/" ++
              freshNames ik.1 ++ compression_ext ++ ".parquet")) ∧
        writesOf (_to_parquet_dataset df path compression_ext partition_cols mode freshNames).1 =
          keys.enum.map (fun ik =>
            (normPath path ++ subdirOf (partition_cols.getD []) ik.2 ++ "/" ++
               freshNames ik.1 ++ compression_ext ++ ".parquet",
             (df.filter (fun r => decide (keyOf (partition_cols.getD []) r = ik.2))).map
               (dropCols (partition_cols.getD []))))) ∧
    (partition_cols.getD [] = [] →
      (_to_parquet_dataset df path compression_ext partition_cols mode freshNames).2 =
        .ok [normPath path ++ freshNames 0 ++ compression_ext ++ ".parquet"] ∧
      writesOf (_to_parquet_dataset df path compression_ext partition_cols mode freshNames).1 =
        [(normPath path ++ freshNames 0 ++ compression_ext ++ ".parquet", df)]) := by
  have hmem : mode ∈ (["append", "overwrite", "partitions_upsert"] : List String) := by
    rcases hmode with h | h | h <;> subst h <;> decide
  constructor
  · intro hpc
    refine ⟨groupKeys (partition_cols.getD []) df, nodup_groupKeys _ _,
      mem_groupKeys _ df, ?_, ?_⟩
    · simp only [_to_parquet_dataset, if_pos hmem, if_neg hpc]
      rw [writeGroups_paths]
      rfl
    · simp only [_to_parquet_dataset, if_pos hmem, if_neg hpc]
      rw [writesOf_append, writesOf_ite_delete, List.nil_append, writeGroups_writes]
      rfl
  · intro hpc
    constructor
    · simp only [_to_parquet_dataset, if_pos hmem, if_pos hpc]
    · simp only [_to_parquet_dataset, if_pos hmem, if_pos hpc]
      rw [writesOf_append, writesOf_ite_delete]
      rfl

/-- Witness for C3: the two-row example dataframe partitioned by `col2`
in mode `append`. -/
theorem C3_partitioned_layout_witness :
    ((some ["col2"] : Option (List String)).getD [] ≠ []) ∧
    (∃ keys : List (List String),
      keys.Nodup ∧
      (∀ k, k ∈ keys ↔
        ∃ r ∈ exDf, keyOf ((some ["col2"] : Option (List String)).getD []) r = k) ∧
      (_to_parquet_dataset exDf "s3://bucket/prefix" ".snappy" (some ["col2"]) "append"
          exFresh).2 =
        .ok (keys.enum.map (fun ik =>
          normPath "s3://bucket/prefix" ++
            subdirOf ((some ["col2"] : Option (List String)).getD []) ik.2 ++ "/" ++
            exFresh ik.1 ++ ".snappy" ++ ".parquet")) ∧
      writesOf (_to_parquet_dataset exDf "s3://bucket/prefix" ".snappy" (some ["col2"])
          "append" exFresh).1 =
        keys.enum.map (fun ik =>
          (normPath "s3://bucket/prefix" ++
             subdirOf ((some ["col2"] : Option (List String)).getD []) ik.2 ++ "/" ++
             exFresh ik.1 ++ ".snappy" ++ ".parquet",
           (exDf.filter (fun r =>
             decide (keyOf ((some ["col2"] : Option (List String)).getD []) r = ik.2))).map
             (dropCols ((some ["col2"] : Option (List String)).getD []))))) :=
  ⟨by decide,
   (C3_partitioned_layout exDf "s3://bucket/prefix" ".snappy" (some ["col2"]) "append" exFresh
     (Or.inl rfl)).1 (by decide)⟩

/-- C5: a compression kind outside `{None, gzip, snappy}` is unmapped by
`_COMPRESSION_2_EXT` and makes `to_parquet` raise `InvalidCompression`
with an empty action trace (so before any network I/O or object
creation); the recognized kinds map, in order, to the extension suffixes
empty, `.gz` and `.snappy`. -/
theorem C5_compression_validation (compression : Option String) :
    (_COMPRESSION_2_EXT compression = none ↔
      ¬(compression = none ∨ compression = some "gzip" ∨ compression = some "snappy")) ∧
    (_COMPRESSION_2_EXT none = some "" ∧ _COMPRESSION_2_EXT (some "gzip") = some ".gz" ∧
      _COMPRESSION_2_EXT (some "snappy") = some ".snappy") ∧
    (∀ df path dataset partition_cols mode freshNames,
      _COMPRESSION_2_EXT compression = none →
      to_parquet df path compression dataset partition_cols mode freshNames =
        ([], .error (.invalidCompression
          ((compression.getD "None") ++ " is invalid, please use None, snappy or gzip.")))) := by
  refine ⟨?_, ⟨rfl, rfl, rfl⟩, ?_⟩
  · cases compression with
    | none => simp [_COMPRESSION_2_EXT]
    | some s =>
      simp only [_COMPRESSION_2_EXT]
      split_ifs with h1 h2 <;> simp_all
  · intro df path dataset partition_cols mode freshNames h
    simp [to_parquet, h]

/-- Witness for C5 at the spec's own example of an invalid kind, `bzip2`. -/
theorem C5_compression_validation_witness :
    _COMPRESSION_2_EXT (some "bzip2") = none ∧
    to_parquet exDf "s3://bucket/prefix" (some "bzip2") true none none exFresh =
      ([], .error (.invalidCompression "bzip2 is invalid, please use None, snappy or gzip.")) := by
  refine ⟨rfl, ?_⟩
  exact (C5_compression_validation (some "bzip2")).2.2 exDf "s3://bucket/prefix" true none none
    exFresh rfl

/-- C4 counterexample: with `dataset=False` and the non-None mode `""`,
`to_parquet` does not raise `InvalidArgumentCombination`; the Python
truthiness test `if mode:` lets the empty string through and the
dataframe is written at the given path. -/
theorem C4_counterexample_empty_mode :
    to_parquet exDf "s3://bucket/key.parquet" (some "snappy") false none (some "") exFresh =
      ([.writeFile "s3://bucket/key.parquet" exDf], .ok ["s3://bucket/key.parquet"]) := by
  rfl

/-- C4 (amended): with `dataset=False` and a valid compression kind, a
truthy (non-empty) `partition_cols` or a truthy (neither None nor empty
string) `mode` raises `InvalidArgumentCombination` with an empty action
trace; otherwise the dataframe is written as one file at exactly the
given path and the singleton list of that path is returned. -/
theorem C4_amended_single_file (df : DataFrame) (path : String) (compression : Option String)
    (ext : String) (partition_cols : Option (List String)) (mode : Option String)
    (freshNames : Nat → String) (hc : _COMPRESSION_2_EXT compression = some ext) :
    (partition_cols.getD [] ≠ [] →
      to_parquet df path compression false partition_cols mode freshNames =
        ([], .error (.invalidArgumentCombination
          "Please, pass dataset=True to be able to use partition_cols."))) ∧
    (partition_cols.getD [] = [] → mode.getD "" ≠ "" →
      to_parquet df path compression false partition_cols mode freshNames =
        ([], .error (.invalidArgumentCombination
          "Please pass dataset=True to be able to use mode."))) ∧
    (partition_cols.getD [] = [] → mode.getD "" = "" →
      to_parquet df path compression false partition_cols mode freshNames =
        ([.writeFile path df], .ok [path])) := by
  refine ⟨fun h1 => ?_, fun h1 h2 => ?_, fun h1 h2 => ?_⟩
  · simp [to_parquet, hc, h1]
  · simp [to_parquet, hc, h1, h2]
  · simp [to_parquet, hc, h1, h2]

/-- Witness for C4 (amended): truthy partition columns with
`dataset=False` are rejected. -/
theorem C4_amended_single_file_witness :
    _COMPRESSION_2_EXT (some "snappy") = some ".snappy" ∧
    to_parquet exDf "s3://bucket/key.parquet" (some "snappy") false (some ["col2"]) none exFresh =
      ([], .error (.invalidArgumentCombination
        "Please, pass dataset=True to be able to use partition_cols.")) := by
  refine ⟨rfl, ?_⟩
  exact (C4_amended_single_file exDf "s3://bucket/key.parquet" (some "snappy") ".snappy"
    (some ["col2"]) none exFresh rfl).1 (by decide)

/-- C1 (code-bug evidence): with `dataset=True` the validation of
`_to_parquet_dataset` accepts exactly the mode strings `append`,
`overwrite` and `partitions_upsert`; the mode `partition_upsert` named by
the claim — and by `to_parquet`'s own docstring — is rejected with
`InvalidArgumentValue`, with an empty action trace (so before any file
is written). -/
theorem C1_mode_spelling :
    to_parquet exDf "s3://bucket/prefix" (some "snappy") true none (some "partition_upsert")
        exFresh =
      ([], .error (.invalidArgumentValue
        "partition_upsert is a invalid mode, please use append, overwrite or partitions_upsert.")) ∧
    (to_parquet exDf "s3://bucket/prefix" (some "snappy") true none (some "append") exFresh).2 =
      .ok ["s3://bucket/prefix/f0.snappy.parquet"] ∧
    (to_parquet exDf "s3://bucket/prefix" (some "snappy") true none (some "overwrite") exFresh).2 =
      .ok ["s3://bucket/prefix/f0.snappy.parquet"] ∧
    (to_parquet exDf "s3://bucket/prefix" (some "snappy") true none (some "partitions_upsert")
        exFresh).2 =
      .ok ["s3://bucket/prefix/f0.snappy.parquet"] := by
  refine ⟨?_, ?_, ?_, ?_⟩ <;> rfl

/-- Outcome of one `head_object` attempt: success with attributes, a
"not found" client error (HTTP status 404), or another client error. -/
inductive HeadRes where
  | ok (d : Desc)
  | notFound
  | err (e : String)
  deriving DecidableEq, Repr

/-- The retry loop of `_describe_object` (`s3.py` lines 300-313):
`for i in range(tries, 0, -1)` with the first argument of the recursion
the number of remaining tries; `j` indexes the per-attempt outcome oracle.
Returns the loop result (the description, an empty mapping when the last
try still found nothing, or the re-raised non-404 error) together with the
number of attempts made. -/
def descLoop (oracle : Nat → HeadRes) (j : Nat) : Nat → Except String Desc × Nat
  | 0 => (.ok [], 0)
  | i + 1 =>
    match oracle j with
    | .ok d => (.ok d, 1)
    | .err e => (.error e, 1)
    | .notFound =>
      if i = 0 then (.ok [], 1)
      else
        let r := descLoop oracle (j + 1) i
        (r.1, r.2 + 1)

/-- The `tries` computation of `_describe_object` (`s3.py` line 296):
`wait_time` when positive, else a single try. -/
def triesOf (wait_time : Option Int) : Nat :=
  match wait_time with
  | some w => if 0 < w then w.toNat else 1
  | none => 1

/-- The `_describe_object` function (`s3.py` lines 292-313) for one
locator, driven by an oracle giving the outcome of each successive
`head_object` attempt; returns the attribute mapping (or the propagated
error) and the number of attempts made. -/
def _describe_object (oracle : Nat → HeadRes) (wait_time : Option Int) :
    Except String Desc × Nat :=
  descLoop oracle 0 (triesOf wait_time)

theorem descLoop_one (oracle : Nat → HeadRes) (j : Nat) :
    (descLoop oracle j 1).2 = 1 := by
  cases h : oracle j <;> simp [descLoop, h]

theorem descLoop_allNotFound (oracle : Nat → HeadRes) :
    ∀ (i j : Nat), (∀ m, m < i → oracle (j + m) = .notFound) →
      descLoop oracle j i = (.ok [], i) := by
  intro i
  induction i with
  | zero => intro j _; rfl
  | succ i ih =>
    intro j h
    have h0 : oracle j = .notFound := by simpa using h 0 (Nat.succ_pos i)
    by_cases hi : i = 0
    · subst hi; simp [descLoop, h0]
    · have hrec := ih (j + 1) (fun m hm => by
        have h' := h (m + 1) (Nat.succ_lt_succ hm)
        rwa [show j + (m + 1) = j + 1 + m by omega] at h')
      simp [descLoop, h0, hi, hrec]

theorem descLoop_err (oracle : Nat → HeadRes) (e : String) :
    ∀ (k i j : Nat), k < i → (∀ m, m < k → oracle (j + m) = .notFound) →
      oracle (j + k) = .err e →
      descLoop oracle j i = (.error e, k + 1) := by
  intro k
  induction k with
  | zero =>
    intro i j hk hnf herr
    obtain ⟨i', rfl⟩ : ∃ i', i = i' + 1 := ⟨i - 1, by omega⟩
    simp only [Nat.add_zero] at herr
    simp [descLoop, herr]
  | succ k ih =>
    intro i j hk hnf herr
    obtain ⟨i', rfl⟩ : ∃ i', i = i' + 1 := ⟨i - 1, by omega⟩
    have h0 : oracle j = .notFound := by simpa using hnf 0 (Nat.succ_pos k)
    have hi' : ¬ i' = 0 := by omega
    have hrec := ih i' (j + 1) (by omega)
      (fun m hm => by
        have h' := hnf (m + 1) (Nat.succ_lt_succ hm)
        rwa [show j + (m + 1) = j + 1 + m by omega] at h')
      (by rwa [show j + (k + 1) = j + 1 + k by omega] at herr)
    simp [descLoop, h0, hi', hrec]

/-- C6: the per-object lookup of `describe_objects` makes exactly one
attempt when `wait_time` is None or non-positive; otherwise, when every
attempt reports not-found, it makes exactly `tries` attempts (one per
retry) and resolves to the empty attribute mapping without raising; and a
non-404 client error at any attempt is propagated at once, after exactly
the attempts made so far and with no further retry. -/
theorem C6_describe_retries (oracle : Nat → HeadRes) (wait_time : Option Int) :
    ((wait_time = none ∨ ∃ w, wait_time = some w ∧ w ≤ 0) →
      (_describe_object oracle wait_time).2 = 1) ∧
    ((∀ m, m < triesOf wait_time → oracle m = .notFound) →
      _describe_object oracle wait_time = (.ok [], triesOf wait_time)) ∧
    (∀ e k, k < triesOf wait_time → (∀ m, m < k → oracle m = .notFound) →
      oracle k = .err e →
      _describe_object oracle wait_time = (.error e, k + 1)) := by
  refine ⟨?_, ?_, ?_⟩
  · intro h
    have ht : triesOf wait_time = 1 := by
      rcases h with h | ⟨w, h, hw⟩ <;> subst h
      · rfl
      · simp [triesOf, show ¬ (0 : Int) < w by omega]
    rw [_describe_object, ht]
    exact descLoop_one oracle 0
  · intro h
    have hrec := descLoop_allNotFound oracle (triesOf wait_time) 0
      (fun m hm => by simpa using h m hm)
    rwa [_describe_object]
  · intro e k hk hnf herr
    have hrec := descLoop_err oracle e k (triesOf wait_time) 0 hk
      (fun m hm => by simpa using hnf m hm) (by simpa using herr)
    rwa [_describe_object]

/-- Witness for C6: three tries, all reporting not-found, resolve to the
empty mapping after exactly three attempts. -/
theorem C6_describe_retries_witness :
    (∀ m, m < triesOf (some 3) → (fun _ => HeadRes.notFound) m = HeadRes.notFound) ∧
    _describe_object (fun _ => HeadRes.notFound) (some 3) = (.ok [], triesOf (some 3)) :=
  ⟨fun _ _ => rfl,
   (C6_describe_retries (fun _ => HeadRes.notFound) (some 3)).2.1 (fun _ _ => rfl)⟩

/-- Modelled from the spec: `_utils.chunkify` is imported from
`awswrangler._utils`, which is not under `src/`; the spec says each
container's key list is chunked "into batches no larger than 1000" and
that M keys give `ceil(M/1000)` batches. This definition takes maximal
batches in order. -/
def chunkify {α : Type _} (max_length : Nat) : List α → List (List α)
  | [] => []
  | a :: l =>
    if h2 : max_length = 0 then [a :: l]
    else (a :: l).take max_length :: chunkify max_length ((a :: l).drop max_length)
termination_by lst => lst.length
decreasing_by
  simp only [List.length_drop, List.length_cons]
  omega

theorem chunkify_nil {α : Type _} (max_length : Nat) :
    chunkify max_length ([] : List α) = [] := by
  simp [chunkify]

theorem chunkify_cons_of_ne {α : Type _} (max_length : Nat) (hm : ¬ max_length = 0)
    (lst : List α) (h : ¬ lst = []) :
    chunkify max_length lst =
      lst.take max_length :: chunkify max_length (lst.drop max_length) := by
  cases lst with
  | nil => exact absurd rfl h
  | cons a l =>
    rw [chunkify.eq_def]
    simp [hm]

theorem chunkify_flatten_aux {α : Type _} (max_length : Nat) (hm : ¬ max_length = 0) :
    ∀ (n : Nat) (lst : List α), lst.length ≤ n →
      (chunkify max_length lst).flatten = lst := by
  intro n
  induction n with
  | zero =>
    intro lst hl
    have h0 : lst = [] := by
      cases lst with
      | nil => rfl
      | cons a l => simp at hl
    subst h0
    simp [chunkify_nil]
  | succ n ih =>
    intro lst hl
    by_cases h : lst = []
    · subst h; simp [chunkify_nil]
    · rw [chunkify_cons_of_ne max_length hm lst h, List.flatten_cons]
      have hlen : (lst.drop max_length).length ≤ n := by
        have h3 : 0 < lst.length := List.length_pos.mpr h
        simp only [List.length_drop]
        omega
      rw [ih (lst.drop max_length) hlen, List.take_append_drop]

theorem chunkify_flatten {α : Type _} (max_length : Nat) (hm : ¬ max_length = 0)
    (lst : List α) : (chunkify max_length lst).flatten = lst :=
  chunkify_flatten_aux max_length hm lst.length lst (Nat.le_refl _)

theorem chunkify_chunk_le_aux {α : Type _} (max_length : Nat) :
    ∀ (n : Nat) (lst : List α), lst.length ≤ n →
      ∀ c ∈ chunkify max_length lst, c.length ≤ max_length ∨ max_length = 0 := by
  intro n
  induction n with
  | zero =>
    intro lst hl c hc
    have h0 : lst = [] := by
      cases lst with
      | nil => rfl
      | cons a l => simp at hl
    subst h0
    rw [chunkify_nil] at hc
    exact absurd hc (List.not_mem_nil c)
  | succ n ih =>
    intro lst hl c hc
    by_cases hm : max_length = 0
    · exact Or.inr hm
    by_cases h : lst = []
    · subst h; rw [chunkify_nil] at hc; exact absurd hc (List.not_mem_nil c)
    · rw [chunkify_cons_of_ne max_length hm lst h, List.mem_cons] at hc
      rcases hc with hc | hc
      · subst hc
        left
        simp [List.length_take]
      · refine ih (lst.drop max_length) ?_ c hc
        have h3 : 0 < lst.length := List.length_pos.mpr h
        simp only [List.length_drop]
        omega

theorem chunkify_chunk_le {α : Type _} (max_length : Nat) (hm : ¬ max_length = 0)
    (lst : List α) (c : List α) (hc : c ∈ chunkify max_length lst) :
    c.length ≤ max_length := by
  rcases chunkify_chunk_le_aux max_length lst.length lst (Nat.le_refl _) c hc with h | h
  · exact h
  · exact absurd h hm

theorem chunkify_length1000_aux {α : Type _} :
    ∀ (n : Nat) (lst : List α), lst.length ≤ n →
      (chunkify 1000 lst).length = (lst.length + 999) / 1000 := by
  intro n
  induction n with
  | zero =>
    intro lst hl
    have h0 : lst = [] := by
      cases lst with
      | nil => rfl
      | cons a l => simp at hl
    subst h0
    simp [chunkify_nil]
  | succ n ih =>
    intro lst hl
    by_cases h : lst = []
    · subst h; simp [chunkify_nil]
    · rw [chunkify_cons_of_ne 1000 (by omega) lst h]
      have h3 : 0 < lst.length := List.length_pos.mpr h
      have hlen : (lst.drop 1000).length ≤ n := by
        simp only [List.length_drop]
        omega
      rw [List.length_cons, ih (lst.drop 1000) hlen]
      simp only [List.length_drop]
      omega

theorem chunkify_length1000 {α : Type _} (lst : List α) :
    (chunkify 1000 lst).length = (lst.length + 999) / 1000 :=
  chunkify_length1000_aux lst.length lst (Nat.le_refl _)

/-- The provider-side object store: `(bucket, key)` pairs in provider
listing order. -/
abbrev Store := List (String × String)

/-- The `list_objects` function (`s3.py` lines 109-154): parse the prefix
locator, page through the provider listing (page size 1000), and collect
an `s3://bucket/key` path for every matched key of every page, in
provider order. -/
def list_objects (store : Store) (path : String) : List String :=
  let bp := parse_path path
  let matched := (store.filter (fun bk =>
    decide (bk.1 = bp.1) && strIsPrefixOf bp.2 bk.2)).map Prod.snd
  ((chunkify 1000 matched).map (fun page =>
    page.map (fun k => "s3://" ++ bp.1 ++ "/" ++ k))).flatten

/-- The polymorphic `path` argument of the inventory operations: a single
prefix string, a list of object paths, or a value of some other type
(represented by its type name as interpolated into the error message). -/
inductive PathArg where
  | str (s : String)
  | list (l : List String)
  | other (tyName : String)
  deriving DecidableEq, Repr

/-- The `_path2list` function (`s3.py` lines 157-164). -/
def _path2list (store : Store) (path : PathArg) : Except Exc (List String) :=
  match path with
  | .str s => .ok (list_objects store s)
  | .list l => .ok l
  | .other tyName => .error (.invalidArgumentType
      (tyName ++ " is not a valid path type. Please, use str or List[str]."))

/-- C7: resolving a string input performs the full paginated listing and
returns every matched object locator of the store in provider order; a
list input is returned unchanged; any other input type raises
`InvalidArgumentType`. -/
theorem C7_path_resolver (store : Store) :
    (∀ p, _path2list store (.str p) =
      .ok ((store.filter (fun bk =>
          decide (bk.1 = (parse_path p).1) && strIsPrefixOf (parse_path p).2 bk.2)).map
        (fun bk => "s3://" ++ bk.1 ++ "/" ++ bk.2))) ∧
    (∀ l, _path2list store (.list l) = .ok l) ∧
    (∀ t, _path2list store (.other t) = .error (.invalidArgumentType
      (t ++ " is not a valid path type. Please, use str or List[str]."))) := by
  refine ⟨?_, fun l => rfl, fun t => rfl⟩
  intro p
  simp only [_path2list, list_objects, Except.ok.injEq]
  rw [← List.map_flatten, chunkify_flatten 1000 (by omega), List.map_map]
  refine List.map_congr_left ?_
  intro bk hbk
  rw [List.mem_filter] at hbk
  have h1 : bk.1 = (parse_path p).1 := by
    have h2 := hbk.2
    rw [Bool.and_eq_true, decide_eq_true_eq] at h2
    exact h2.1
  simp [Function.comp, h1]

/-- One step of the bucket-grouping dictionary update of
`_split_paths_by_bucket`: append the key to the bucket's entry, inserting
a new entry at the end for a first-seen bucket (Python dicts preserve
insertion order). -/
def addKey : List (String × List String) → String → String → List (String × List String)
  | [], b, k => [(b, [k])]
  | e :: rest, b, k =>
    if e.1 = b then (e.1, e.2 ++ [k]) :: rest else e :: addKey rest b k

/-- The `_split_paths_by_bucket` function (`s3.py` lines 214-223): group
the paths' keys by bucket, preserving per-bucket key order. -/
def _split_paths_by_bucket (paths : List String) : List (String × List String) :=
  paths.foldl (fun acc p => addKey acc (parse_path p).1 (parse_path p).2) []

/-- The concatenated key list recorded for bucket `b` in a grouping
accumulator (proof-side view of the dictionary). -/
def bucketKeys (acc : List (String × List String)) (b : String) : List String :=
  ((acc.filter (fun e => decide (e.1 = b))).map (fun e => e.2)).flatten

/-- The keys of the paths whose bucket is `b`, in path order. -/
def keysOfB (paths : List String) (b : String) : List String :=
  (paths.filter (fun p => decide ((parse_path p).1 = b))).map (fun p => (parse_path p).2)

theorem fst_addKey (acc : List (String × List String)) (b k : String) :
    (addKey acc b k).map Prod.fst =
      if b ∈ acc.map Prod.fst then acc.map Prod.fst else acc.map Prod.fst ++ [b] := by
  induction acc with
  | nil => simp [addKey]
  | cons e rest ih =>
    by_cases h : e.1 = b
    · simp [addKey, h]
    · have hne : ¬ b = e.1 := fun hb => h hb.symm
      simp only [addKey, if_neg h, List.map_cons, List.mem_cons, hne, false_or, ih]
      by_cases hb : b ∈ rest.map Prod.fst <;> simp [hb]

theorem nodup_fst_addKey (acc : List (String × List String)) (b k : String)
    (h : (acc.map Prod.fst).Nodup) : ((addKey acc b k).map Prod.fst).Nodup := by
  rw [fst_addKey]
  by_cases hb : b ∈ acc.map Prod.fst
  · simpa [hb] using h
  · simpa [hb, List.nodup_append] using h

theorem bucketKeys_nil (b : String) : bucketKeys [] b = [] := rfl

theorem bucketKeys_cons (e : String × List String) (acc : List (String × List String))
    (b : String) :
    bucketKeys (e :: acc) b = (if e.1 = b then e.2 else []) ++ bucketKeys acc b := by
  by_cases h : e.1 = b <;> simp [bucketKeys, h]

theorem bucketKeys_eq_nil_of_not_mem (b : String) :
    ∀ acc : List (String × List String), b ∉ acc.map Prod.fst → bucketKeys acc b = [] := by
  intro acc
  induction acc with
  | nil => intro _; rfl
  | cons e rest ih =>
    intro h
    simp only [List.map_cons, List.mem_cons] at h
    push_neg at h
    rw [bucketKeys_cons, if_neg (fun he => h.1 he.symm), List.nil_append]
    exact ih h.2

theorem bucketKeys_addKey (b k b' : String) :
    ∀ acc : List (String × List String), (acc.map Prod.fst).Nodup →
      bucketKeys (addKey acc b k) b' =
        bucketKeys acc b' ++ (if b = b' then [k] else []) := by
  intro acc
  induction acc with
  | nil =>
    intro _
    by_cases hb : b = b' <;> simp [addKey, bucketKeys, hb]
  | cons e rest ih =>
    intro h
    simp only [List.map_cons, List.nodup_cons] at h
    by_cases he : e.1 = b
    · rw [show addKey (e :: rest) b k = (e.1, e.2 ++ [k]) :: rest by
        simp [addKey, he]]
      rw [bucketKeys_cons, bucketKeys_cons]
      by_cases hb : e.1 = b'
      · have hrest : bucketKeys rest b' = [] :=
          bucketKeys_eq_nil_of_not_mem b' rest (hb ▸ h.1)
        rw [if_pos hb, if_pos hb, if_pos (he ▸ hb : b = b'), hrest]
        simp
      · rw [if_neg hb, if_neg hb, if_neg (he ▸ hb : ¬ b = b')]
        simp
    · rw [show addKey (e :: rest) b k = e :: addKey rest b k by
        simp [addKey, he]]
      rw [bucketKeys_cons, bucketKeys_cons, ih h.2, List.append_assoc]

theorem split_foldl_spec :
    ∀ (ps : List String) (acc : List (String × List String)),
      (acc.map Prod.fst).Nodup →
      (((ps.foldl (fun acc p => addKey acc (parse_path p).1 (parse_path p).2) acc).map
          Prod.fst).Nodup ∧
       ∀ b, bucketKeys (ps.foldl (fun acc p => addKey acc (parse_path p).1 (parse_path p).2)
          acc) b = bucketKeys acc b ++ keysOfB ps b) := by
  intro ps
  induction ps with
  | nil => intro acc h; exact ⟨h, fun b => by simp [keysOfB]⟩
  | cons p ps ih =>
    intro acc h
    have h1 : ((addKey acc (parse_path p).1 (parse_path p).2).map Prod.fst).Nodup :=
      nodup_fst_addKey acc _ _ h
    obtain ⟨ih1, ih2⟩ := ih (addKey acc (parse_path p).1 (parse_path p).2) h1
    refine ⟨ih1, fun b => ?_⟩
    simp only [List.foldl_cons] at ih2 ⊢
    rw [ih2 b, bucketKeys_addKey (parse_path p).1 (parse_path p).2 b acc h]
    by_cases hb : (parse_path p).1 = b
    · simp [keysOfB, hb, List.append_assoc]
    · simp [keysOfB, hb]

theorem split_spec (paths : List String) :
    ((_split_paths_by_bucket paths).map Prod.fst).Nodup ∧
    ∀ b, bucketKeys (_split_paths_by_bucket paths) b = keysOfB paths b := by
  obtain ⟨h1, h2⟩ := split_foldl_spec paths [] (by simp)
  refine ⟨h1, fun b => ?_⟩
  have hb := h2 b
  simpa [bucketKeys] using hb

/-- The `delete_objects` function (`s3.py` lines 167-211), modelled by
the bulk-delete requests `(bucket, keys-chunk)` it issues, in issue order
(one request per chunk; the request set does not depend on `use_threads`,
which only changes how the per-chunk calls are dispatched). -/
def delete_objects (store : Store) (path : PathArg) :
    Except Exc (List (String × List String)) :=
  match _path2list store path with
  | .error e => .error e
  | .ok paths =>
    if paths.length < 1 then .ok []
    else
      .ok (((_split_paths_by_bucket paths).map (fun bk =>
        (chunkify 1000 bk.2).map (fun c => (bk.1, c)))).flatten)

/-- The delete requests generated from a grouping accumulator
(proof-side view of the request list of `delete_objects`). -/
def reqsOf (acc : List (String × List String)) : List (String × List String) :=
  (acc.map (fun bk => (chunkify 1000 bk.2).map (fun c => (bk.1, c)))).flatten

theorem reqsOf_filter_not_mem (b : String) :
    ∀ acc : List (String × List String), b ∉ acc.map Prod.fst →
      (reqsOf acc).filter (fun r => decide (r.1 = b)) = [] := by
  intro acc
  induction acc with
  | nil => intro _; rfl
  | cons e rest ih =>
    intro h
    simp only [List.map_cons, List.mem_cons] at h
    push_neg at h
    simp only [reqsOf, List.map_cons, List.flatten_cons, List.filter_append]
    have h1 : ((chunkify 1000 e.2).map (fun c => (e.1, c))).filter
        (fun r => decide (r.1 = b)) = [] := by
      rw [List.filter_eq_nil_iff]
      intro r hr
      obtain ⟨c, _, rfl⟩ := List.mem_map.mp hr
      simpa using fun hc => h.1 hc.symm
    rw [h1, List.nil_append]
    exact ih h.2

theorem reqsOf_filter (b : String) :
    ∀ acc : List (String × List String), (acc.map Prod.fst).Nodup →
      ((reqsOf acc).filter (fun r => decide (r.1 = b))).map (fun r => r.2) =
        chunkify 1000 (bucketKeys acc b) := by
  intro acc
  induction acc with
  | nil => intro _; simp [reqsOf, bucketKeys_nil, chunkify_nil]
  | cons e rest ih =>
    intro h
    simp only [List.map_cons, List.nodup_cons] at h
    simp only [reqsOf, List.map_cons, List.flatten_cons, List.filter_append, List.map_append]
    rw [bucketKeys_cons]
    by_cases hb : e.1 = b
    · have h1 : ((chunkify 1000 e.2).map (fun c => (e.1, c))).filter
          (fun r => decide (r.1 = b)) = (chunkify 1000 e.2).map (fun c => (e.1, c)) := by
        rw [List.filter_eq_self]
        intro r hr
        obtain ⟨c, _, rfl⟩ := List.mem_map.mp hr
        simpa using hb
      have h2 := reqsOf_filter_not_mem b rest (hb ▸ h.1)
      simp only [reqsOf] at h2
      rw [h1, h2, List.map_map, if_pos hb,
        bucketKeys_eq_nil_of_not_mem b rest (hb ▸ h.1), List.append_nil]
      simp [Function.comp]
    · have h1 : ((chunkify 1000 e.2).map (fun c => (e.1, c))).filter
          (fun r => decide (r.1 = b)) = [] := by
        rw [List.filter_eq_nil_iff]
        intro r hr
        obtain ⟨c, _, rfl⟩ := List.mem_map.mp hr
        simpa using hb
      rw [h1, if_neg hb, List.nil_append]
      have ih' := ih h.2
      simp only [reqsOf] at ih'
      simpa using ih'

theorem reqsOf_chunk_le (acc : List (String × List String)) :
    ∀ r ∈ reqsOf acc, r.2.length ≤ 1000 := by
  intro r hr
  simp only [reqsOf, List.mem_flatten, List.mem_map] at hr
  obtain ⟨l, ⟨bk, _, rfl⟩, hrl⟩ := hr
  obtain ⟨c, hc, rfl⟩ := List.mem_map.mp hrl
  exact chunkify_chunk_le 1000 (by omega) bk.2 c hc

/-- C8: for a successfully resolved input, `delete_objects` issues no
request when the resolved list is empty; otherwise it groups keys per
bucket preserving per-bucket key order, splits each bucket's M keys into
`ceil(M/1000)` chunks of at most 1000 keys, and issues exactly one
bulk-delete request per chunk: per bucket, the concatenation of the
issued chunks is exactly that bucket's key list in path order, and the
number of requests is exactly `ceil(M/1000)`. -/
theorem C8_delete_chunking (store : Store) (arg : PathArg) (paths : List String)
    (hres : _path2list store arg = .ok paths) :
    ∃ reqs : List (String × List String),
      delete_objects store arg = .ok reqs ∧
      (paths = [] → reqs = []) ∧
      (∀ r ∈ reqs, r.2.length ≤ 1000) ∧
      (∀ b, ((reqs.filter (fun r => decide (r.1 = b))).map (fun r => r.2)).flatten =
        keysOfB paths b) ∧
      (∀ b, (reqs.filter (fun r => decide (r.1 = b))).length =
        ((keysOfB paths b).length + 999) / 1000) := by
  by_cases hemp : paths = []
  · subst hemp
    refine ⟨[], by simp [delete_objects, hres], fun _ => rfl, by simp, ?_, ?_⟩
    · intro b; simp [keysOfB]
    · intro b; simp [keysOfB]
  · have hlen : ¬ paths.length < 1 := by
      have h0 := List.length_pos.mpr hemp
      omega
    obtain ⟨hnd, hbk⟩ := split_spec paths
    refine ⟨reqsOf (_split_paths_by_bucket paths), ?_, fun h => absurd h hemp,
      reqsOf_chunk_le _, fun b => ?_, fun b => ?_⟩
    · simp [delete_objects, hres, hlen, reqsOf]
    · rw [reqsOf_filter b _ hnd, hbk b, chunkify_flatten 1000 (by omega)]
    · have hlenmap := congrArg List.length (reqsOf_filter b (_split_paths_by_bucket paths) hnd)
      rw [List.length_map, chunkify_length1000, hbk b] at hlenmap
      exact hlenmap

/-- Witness for C8: three explicit object paths over two buckets. -/
theorem C8_delete_chunking_witness :
    _path2list [] (.list ["s3://b/k1", "s3://b/k2", "s3://c/k3"]) =
      .ok ["s3://b/k1", "s3://b/k2", "s3://c/k3"] ∧
    (∃ reqs : List (String × List String),
      delete_objects [] (.list ["s3://b/k1", "s3://b/k2", "s3://c/k3"]) = .ok reqs ∧
      (["s3://b/k1", "s3://b/k2", "s3://c/k3"] = ([] : List String) → reqs = []) ∧
      (∀ r ∈ reqs, r.2.length ≤ 1000) ∧
      (∀ b, ((reqs.filter (fun r => decide (r.1 = b))).map (fun r => r.2)).flatten =
        keysOfB ["s3://b/k1", "s3://b/k2", "s3://c/k3"] b) ∧
      (∀ b, (reqs.filter (fun r => decide (r.1 = b))).length =
        ((keysOfB ["s3://b/k1", "s3://b/k2", "s3://c/k3"] b).length + 999) / 1000)) :=
  ⟨rfl, C8_delete_chunking [] (.list ["s3://b/k1", "s3://b/k2", "s3://c/k3"])
    ["s3://b/k1", "s3://b/k2", "s3://c/k3"] rfl⟩

/-- Sequential execution of a per-item operation (the `use_threads=False`
branches of `describe_objects` and `read_csv`). -/
def execSeq {α β : Type _} (f : α → β) (xs : List α) : List β := xs.map f

/-- Thread-pool execution (`concurrent.futures.ThreadPoolExecutor.map`):
workers complete the tasks in an arbitrary completion order `sched` over
the task indices, producing `(index, result)` completions; the results
are then collected back in input-index order. `x0` and `b0` are
inhabitants used to totalize out-of-range lookups; they are never reached
when `sched` is a permutation of the indices. -/
def execConc {α β : Type _} (f : α → β) (x0 : α) (b0 : β) (xs : List α)
    (sched : List Nat) : List β :=
  let completed := sched.map (fun i => (i, f (xs.getD i x0)))
  (List.range xs.length).map (fun j =>
    match completed.find? (fun p => p.1 == j) with
    | some p => p.2
    | none => b0)

theorem find?_map_pair {β : Type _} (g : Nat → β) (j : Nat) :
    ∀ l : List Nat, j ∈ l →
      (l.map (fun i => (i, g i))).find? (fun p => p.1 == j) = some (j, g j) := by
  intro l
  induction l with
  | nil => intro h; exact absurd h (List.not_mem_nil j)
  | cons i rest ih =>
    intro h
    by_cases hij : i = j
    · subst hij
      simp only [List.map_cons]
      exact List.find?_cons_of_pos _ (by simp)
    · rw [List.mem_cons] at h
      rcases h with h | h
      · exact absurd h.symm hij
      · simp only [List.map_cons]
        rw [List.find?_cons_of_neg _ (by simpa using hij)]
        exact ih h

theorem execConc_eq_execSeq {α β : Type _} (f : α → β) (x0 : α) (b0 : β) (xs : List α)
    (sched : List Nat) (hperm : sched.Perm (List.range xs.length)) :
    execConc f x0 b0 xs sched = execSeq f xs := by
  apply List.ext_getElem
  · simp [execConc, execSeq]
  · intro j h1 h2
    simp only [execConc, execSeq] at h1 ⊢
    have hjlen : j < xs.length := by simpa using h1
    have hmem : j ∈ sched := hperm.mem_iff.mpr (List.mem_range.mpr hjlen)
    have hfind := find?_map_pair (fun i => f (xs.getD i x0)) j sched hmem
    simp only [List.getElem_map, List.getElem_range, hfind]
    rw [List.getD_eq_getElem?_getD, List.getElem?_eq_getElem hjlen]
    rfl

/-- Unified errors of `describe_objects`: an argument-validation exception
or a propagated provider client error. -/
inductive OpError where
  | exc (e : Exc)
  | clientError (e : String)
  deriving DecidableEq, Repr

/-- Collection of per-item outcomes: the first raised error (in input
order) aborts the collection, mirroring the sequential loop and the point
of collection of thread-pool results. -/
def collectResults {β : Type _} : List (Except String β) → Except String (List β)
  | [] => .ok []
  | .error e :: _ => .error e
  | .ok b :: rest =>
    match collectResults rest with
    | .error e => .error e
    | .ok bs => .ok (b :: bs)

/-- The `describe_objects` function (`s3.py` lines 232-289): resolve the
input, short-circuit when empty, run `_describe_object` per locator
either sequentially or on the thread pool (completion order `sched`), and
collect the `(path, description)` pairs, in input order, into the result
mapping. `oracle p` gives the per-attempt `head_object` outcomes for
locator `p`. -/
def describe_objects (store : Store) (oracle : String → Nat → HeadRes)
    (wait_time : Option Int) (use_threads : Bool) (sched : List Nat) (path : PathArg) :
    Except OpError (List (String × Desc)) :=
  match _path2list store path with
  | .error e => .error (.exc e)
  | .ok paths =>
    if paths.length < 1 then .ok []
    else
      let f : String → Except String (String × Desc) := fun p =>
        match (_describe_object (oracle p) wait_time).1 with
        | .ok d => .ok (p, d)
        | .error e => .error e
      let resp_list :=
        if use_threads = false then execSeq f paths
        else execConc f "" (.ok ("", [])) paths sched
      match collectResults resp_list with
      | .ok l => .ok l
      | .error e => .error (.clientError e)

/-- The `read_csv` function (`s3.py` lines 560-624): resolve the input,
decode each object into a dataframe fragment (`decode` models the
external `pandas.read_csv` of the object at a path) sequentially or on
the thread pool, and concatenate the fragments in input order
(`pd.concat` with `ignore_index=True`: rows appended in order). -/
def read_csv (store : Store) (decode : String → DataFrame) (use_threads : Bool)
    (sched : List Nat) (path : PathArg) : Except Exc DataFrame :=
  match _path2list store path with
  | .error e => .error e
  | .ok paths =>
    let frames :=
      if use_threads = false then execSeq decode paths
      else execConc decode "" [] paths sched
    .ok frames.flatten

/-- C9: when the thread-pool completion order is any permutation of the
task indices and no per-item operation raises, `describe_objects` and
`read_csv` produce under `use_threads=True` exactly the result they
produce under `use_threads=False`: equal length and identical values at
every input-order index. -/
theorem C9_executor_order (store : Store) (oracle : String → Nat → HeadRes)
    (wait_time : Option Int) (decode : String → DataFrame) (arg : PathArg)
    (paths : List String) (sched : List Nat)
    (hres : _path2list store arg = .ok paths)
    (hperm : sched.Perm (List.range paths.length))
    (hnoerr : ∀ p ∈ paths, ((_describe_object (oracle p) wait_time).1).isOk = true) :
    describe_objects store oracle wait_time true sched arg =
      describe_objects store oracle wait_time false sched arg ∧
    read_csv store decode true sched arg = read_csv store decode false sched arg := by
  constructor
  · simp only [describe_objects, hres]
    rw [execConc_eq_execSeq _ _ _ _ sched hperm]
    simp
  · simp only [read_csv, hres]
    rw [execConc_eq_execSeq _ _ _ _ sched hperm]
    simp

/-- Witness for C9: two explicit paths, completion order reversed. -/
theorem C9_executor_order_witness :
    _path2list [] (.list ["s3://b/k1", "s3://b/k2"]) = .ok ["s3://b/k1", "s3://b/k2"] ∧
    List.Perm [1, 0] (List.range (["s3://b/k1", "s3://b/k2"] : List String).length) ∧
    (describe_objects [] (fun _ _ => HeadRes.ok []) none true [1, 0]
        (.list ["s3://b/k1", "s3://b/k2"]) =
      describe_objects [] (fun _ _ => HeadRes.ok []) none false [1, 0]
        (.list ["s3://b/k1", "s3://b/k2"]) ∧
     read_csv [] (fun _ => []) true [1, 0] (.list ["s3://b/k1", "s3://b/k2"]) =
       read_csv [] (fun _ => []) false [1, 0] (.list ["s3://b/k1", "s3://b/k2"])) :=
  ⟨rfl, by decide,
   C9_executor_order [] (fun _ _ => HeadRes.ok []) none (fun _ => [])
     (.list ["s3://b/k1", "s3://b/k2"]) ["s3://b/k1", "s3://b/k2"] [1, 0] rfl (by decide)
     (fun p _ => rfl)⟩

/-- Outcome of the `head_object` call of `does_object_exists`: success or
a client error carrying its HTTP status code. -/
inductive HeadOutcome where
  | ok (d : Desc)
  | clientError (status : Nat)
  deriving DecidableEq, Repr

/-- The `does_object_exists` function (`s3.py` lines 61-106): split the
locator into bucket and key, call `head_object` (outcome given by
`head`), return True on success, return False on a client error with HTTP
status 404, and re-raise any other client error. -/
def does_object_exists (head : String → String → HeadOutcome) (path : String) :
    Except Nat Bool :=
  let bk := parse_path path
  match head bk.1 bk.2 with
  | .ok _ => .ok true
  | .clientError status => if status = 404 then .ok false else .error status

/-- C10: `does_object_exists` returns True exactly when the point lookup
succeeds, returns False exactly when the lookup fails with a client error
of HTTP status 404, and re-raises any client error with a different
status unchanged instead of mapping it to a boolean. -/
theorem C10_object_exists (head : String → String → HeadOutcome) (path : String) :
    (∀ d, head (parse_path path).1 (parse_path path).2 = .ok d →
      does_object_exists head path = .ok true) ∧
    (head (parse_path path).1 (parse_path path).2 = .clientError 404 →
      does_object_exists head path = .ok false) ∧
    (∀ status, ¬ status = 404 →
      head (parse_path path).1 (parse_path path).2 = .clientError status →
      does_object_exists head path = .error status) := by
  refine ⟨fun d h => ?_, fun h => ?_, fun status hs h => ?_⟩
  · simp [does_object_exists, h]
  · simp [does_object_exists, h]
  · simp [does_object_exists, h, hs]

/-- Witness for C10: a non-404 client error (403) is re-raised. -/
theorem C10_object_exists_witness :
    ¬ (403 : Nat) = 404 ∧
    does_object_exists (fun _ _ => HeadOutcome.clientError 403) "s3://bucket/key" =
      .error 403 :=
  ⟨by decide,
   (C10_object_exists (fun _ _ => HeadOutcome.clientError 403) "s3://bucket/key").2.2 403
     (by decide) rfl⟩

end AwsWranglerS3
